import Mathlib

/-!
# Account store of `account/postgres/store.go`

A shallow embedding of the Go package `postgres`: the `Store` methods
`Create`, `Get`, `UpdatePassword`, `UpdateUsername`, `Delete`, `Authenticate`,
`UpdateData` and the helper `authenticateWithIDAndPassword`, over an explicit
model of the table `hydra_account` that `accountSchema` declares.

The Go `*sql.DB` handle is mutable state behind a pointer; here it is the value
`DB`, threaded through every method: a method returns its Go result together
with the database after the call.
-/

namespace postgres

/-! ## Errors -/

/-- Errors that come back from `database/sql`: the sentinel `sql.ErrNoRows`, a
violation of one of the two constraints of `accountSchema`, and every other
failure of a statement (connectivity, a value the column type rejects, ...). -/
inductive SqlError where
  | ErrNoRows
  | uniqueViolation (constraintName : String)
  | driver
  deriving DecidableEq, Repr

/-- Go `error` values seen by the store. `ErrNotFound` is the sentinel
`pkg.ErrNotFound`, `sql e` is an error of `database/sql`, `hasher msg` is an error value made by a
`hash.Hasher`, and `traced e` is the `*errors.Error` of `go-errors` that carries
`e` with a stack trace. -/
inductive Error where
  | ErrNotFound
  | sql (e : SqlError)
  | hasher (msg : String)
  | traced (e : Error)
  deriving DecidableEq, Repr

/-- Go `errors.New(e)` of `github.com/go-errors/errors` applied to an error:
it always allocates a new `*errors.Error` around `e`, also when `e` is one
already. -/
def errorsNew (e : Error) : Error := .traced e

/-- The error underneath the `go-errors` wrappers. -/
def Error.cause : Error → Error
  | .traced e => e.cause
  | e => e

/-! ## The account entity and the hasher capability -/

/-- Modelled from the spec: `account.DefaultAccount` is declared in package
`account`, which is not part of this file. The spec gives an account an ID, a
username, a hashed password and a data blob; the field order is the one `Create`
uses in `&account.DefaultAccount{id, username, password, data}` and `Get` uses in
`row.Scan(&a.ID, &a.Username, &a.Password, &a.Data)`. -/
structure DefaultAccount where
  ID : String
  Username : String
  Password : String
  Data : String
  deriving DecidableEq, Repr

/-- Getter `GetID` of the `account.Account` interface. -/
def DefaultAccount.GetID (a : DefaultAccount) : String := a.ID

/-- Getter `GetUsername` of the `account.Account` interface. -/
def DefaultAccount.GetUsername (a : DefaultAccount) : String := a.Username

/-- Getter `GetPassword` of the `account.Account` interface. -/
def DefaultAccount.GetPassword (a : DefaultAccount) : String := a.Password

/-- Getter `GetData` of the `account.Account` interface. -/
def DefaultAccount.GetData (a : DefaultAccount) : String := a.Data

/-- Modelled from the spec: the interface `hash.Hasher` is declared in package
`hash`, which is not part of this file. The spec gives it
`Hash(plaintext) → (hash, error)` and `Compare(hash, plaintext) → error`, nil on
a match. It is a parameter of every theorem. -/
structure Hasher where
  Hash : String → Except Error String
  Compare : String → String → Option Error

/-! ## The table `hydra_account` and the statements the store sends -/

/-- One row of `hydra_account`, in the column order of `accountSchema`. The
store only ever writes Go strings, so no column holds NULL. -/
structure Row where
  id : String
  username : String
  password : String
  data : String
  deriving DecidableEq, Repr

/-- The two `SELECT` statements, with their bound parameter. -/
inductive Query where
  | byId (id : String)
  | byUsername (username : String)
  deriving DecidableEq, Repr

/-- The `INSERT`, the three `UPDATE`s and the `DELETE`, with their bound
parameters in the order `$1, $2, ...`. -/
inductive Command where
  | insertRow (id username password data : String)
  | setPassword (id password : String)
  | setUsername (id username : String)
  | setData (id data : String)
  | deleteRow (id : String)
  deriving DecidableEq, Repr

/-- A statement sent over the handle, as recorded in the log. -/
inductive Stmt where
  | query (q : Query)
  | exec (c : Command)
  deriving DecidableEq, Repr

/-- The database behind the `*sql.DB` handle: the rows of `hydra_account`, the
outcomes still to come for the next statements (`true`: the statement fails for
a reason outside the table, whatever it says; an empty list: none fails), and
the statements sent so far. -/
structure DB where
  rows : List Row
  faults : List Bool
  log : List Stmt
  deriving DecidableEq, Repr

/-- `id text NOT NULL PRIMARY KEY`: no two rows share an id. -/
def UniqueIDs (rows : List Row) : Prop := (rows.map Row.id).Nodup

/-- `username text NOT NULL UNIQUE`: no two rows share a username. -/
def UniqueUsernames (rows : List Row) : Prop := (rows.map Row.username).Nodup

/-- The constraints of `accountSchema` on a table state. -/
def Valid (rows : List Row) : Prop := UniqueIDs rows ∧ UniqueUsernames rows

/-- Whether the next statement fails for a reason outside the table. -/
def nextFails : List Bool → Bool
  | [] => false
  | f :: _ => f

instance (rows : List Row) : Decidable (UniqueIDs rows) :=
  inferInstanceAs (Decidable (rows.map Row.id).Nodup)

instance (rows : List Row) : Decidable (UniqueUsernames rows) :=
  inferInstanceAs (Decidable (rows.map Row.username).Nodup)

instance (rows : List Row) : Decidable (Valid rows) :=
  inferInstanceAs (Decidable (UniqueIDs rows ∧ UniqueUsernames rows))

/-- None of the next `n` statements fails for a reason outside the table. -/
def quiet : Nat → List Bool → Bool
  | 0, _ => true
  | _ + 1, [] => true
  | n + 1, f :: fs => !f && quiet n fs

/-- What a command does to the rows when the server runs it.
`INSERT` appends the row unless its id or its username is taken; an `UPDATE`
rewrites one column of the rows `WHERE id=$1`, and the one of `username` is
refused when a row with another id already has the new username; `DELETE`
drops the rows `WHERE id=$1`. An `UPDATE` or `DELETE` that matches no row
succeeds. -/
def Command.run (rows : List Row) : Command → Except SqlError (List Row)
  | .insertRow id username password data =>
    if rows.any (fun r => r.id = id) then
      .error (.uniqueViolation "hydra_account_pkey")
    else if rows.any (fun r => r.username = username) then
      .error (.uniqueViolation "hydra_account_username_key")
    else
      .ok (rows ++ [⟨id, username, password, data⟩])
  | .setPassword id password =>
    .ok (rows.map (fun r => if r.id = id then { r with password := password } else r))
  | .setUsername id username =>
    if rows.any (fun r => r.id = id) && rows.any (fun r => r.id ≠ id ∧ r.username = username) then
      .error (.uniqueViolation "hydra_account_username_key")
    else
      .ok (rows.map (fun r => if r.id = id then { r with username := username } else r))
  | .setData id data =>
    .ok (rows.map (fun r => if r.id = id then { r with data := data } else r))
  | .deleteRow id =>
    .ok (rows.filter (fun r => r.id ≠ id))

/-- The first row a `SELECT` yields, if any. -/
def Query.run (rows : List Row) : Query → Option Row
  | .byId id => rows.find? (fun r => r.id = id)
  | .byUsername username => rows.find? (fun r => r.username = username)

/-- Go `db.Exec(stmt, args...)`: the error it returns (`none` for nil) and the
database afterwards. A statement that fails changes no row. -/
def DB.Exec (db : DB) (c : Command) : Option SqlError × DB :=
  let log := db.log ++ [Stmt.exec c]
  if nextFails db.faults then
    (some .driver, ⟨db.rows, db.faults.tail, log⟩)
  else
    match c.run db.rows with
    | .ok rows => (none, ⟨rows, db.faults.tail, log⟩)
    | .error e => (some e, ⟨db.rows, db.faults.tail, log⟩)

/-- Go `db.QueryRow(stmt, arg)` followed by `row.Scan(...)`: the scanned row,
`sql.ErrNoRows` when the result set is empty, or the error of the query. -/
def DB.QueryRow (db : DB) (q : Query) : Except SqlError Row × DB :=
  let log := db.log ++ [Stmt.query q]
  if nextFails db.faults then
    (.error .driver, ⟨db.rows, db.faults.tail, log⟩)
  else
    match q.run db.rows with
    | some r => (.ok r, ⟨db.rows, db.faults.tail, log⟩)
    | none => (.error .ErrNoRows, ⟨db.rows, db.faults.tail, log⟩)

/-- The destinations of `row.Scan(&a.ID, &a.Username, &a.Password, &a.Data)`
for the column list `id, username, password, data`. -/
def Scan (r : Row) : DefaultAccount := ⟨r.id, r.username, r.password, r.data⟩

/-! ## The store -/

/-- Go `type Store struct { hasher hash.Hasher; db *sql.DB }`; the database the
handle points to is passed to each method. -/
structure Store where
  hasher : Hasher

/-- Go `func (s *Store) Create(id, username, password, data string)`. -/
def Store.Create (s : Store) (db : DB) (id username password data : String) :
    Except Error DefaultAccount × DB :=
  match s.hasher.Hash password with
  | .error err => (.error err, db)
  | .ok password =>
    match db.Exec (.insertRow id username password data) with
    | (some err, db) => (.error (errorsNew (.sql err)), db)
    | (none, db) => (.ok ⟨id, username, password, data⟩, db)

/-- Go `func (s *Store) Get(id string)`. -/
def Store.Get (_s : Store) (db : DB) (id : String) : Except Error DefaultAccount × DB :=
  match db.QueryRow (.byId id) with
  | (.error .ErrNoRows, db) => (.error .ErrNotFound, db)
  | (.error err, db) => (.error (errorsNew (.sql err)), db)
  | (.ok r, db) => (.ok (Scan r), db)

/-- Go `func (s *Store) authenticateWithIDAndPassword(id, password string)`. -/
def Store.authenticateWithIDAndPassword (s : Store) (db : DB) (id password : String) :
    Except Error DefaultAccount × DB :=
  match s.Get db id with
  | (.error err, db) => (.error (errorsNew err), db)
  | (.ok acc, db) =>
    match s.hasher.Compare acc.GetPassword password with
    | some err => (.error (errorsNew err), db)
    | none => (.ok acc, db)

/-- Go `func (s *Store) UpdatePassword(id, oldPassword, newPassword string)`. -/
def Store.UpdatePassword (s : Store) (db : DB) (id oldPassword newPassword : String) :
    Except Error DefaultAccount × DB :=
  match s.authenticateWithIDAndPassword db id oldPassword with
  | (.error err, db) => (.error err, db)
  | (.ok acc, db) =>
    match s.hasher.Hash newPassword with
    | .error err => (.error err, db)
    | .ok newPassword =>
      match db.Exec (.setPassword id newPassword) with
      | (some err, db) => (.error (errorsNew (.sql err)), db)
      | (none, db) => (.ok ⟨acc.GetID, acc.GetUsername, newPassword, acc.GetData⟩, db)

/-- Go `func (s *Store) UpdateUsername(id, username, password string)`. The
struct literal of the result is
`&account.DefaultAccount{acc.GetID(), username, acc.GetUsername(), acc.GetData()}`. -/
def Store.UpdateUsername (s : Store) (db : DB) (id username password : String) :
    Except Error DefaultAccount × DB :=
  match s.authenticateWithIDAndPassword db id password with
  | (.error err, db) => (.error err, db)
  | (.ok acc, db) =>
    match db.Exec (.setUsername id username) with
    | (some err, db) => (.error (errorsNew (.sql err)), db)
    | (none, db) => (.ok ⟨acc.GetID, username, acc.GetUsername, acc.GetData⟩, db)

/-- Go `func (s *Store) Delete(id string) (err error)`. -/
def Store.Delete (_s : Store) (db : DB) (id : String) : Option Error × DB :=
  match db.Exec (.deleteRow id) with
  | (some err, db) => (some (errorsNew (.sql err)), db)
  | (none, db) => (none, db)

/-- Go `func (s *Store) Authenticate(username, password string)`. -/
def Store.Authenticate (s : Store) (db : DB) (username password : String) :
    Except Error DefaultAccount × DB :=
  match db.QueryRow (.byUsername username) with
  | (.error .ErrNoRows, db) => (.error .ErrNotFound, db)
  | (.error err, db) => (.error (.sql err), db)
  | (.ok r, db) =>
    match s.hasher.Compare (Scan r).Password password with
    | some err => (.error err, db)
    | none => (.ok (Scan r), db)

/-- Go `func (s *Store) UpdateData(id string, data string)`. -/
def Store.UpdateData (s : Store) (db : DB) (id data : String) :
    Except Error DefaultAccount × DB :=
  match db.Exec (.setData id data) with
  | (some err, db) => (.error (errorsNew (.sql err)), db)
  | (none, db) => s.Get db id

/-! ## Sequences of calls -/

/-- One call of a method of the store, with its arguments. -/
inductive Call where
  | Create (id username password data : String)
  | Get (id : String)
  | UpdatePassword (id oldPassword newPassword : String)
  | UpdateUsername (id username password : String)
  | Delete (id : String)
  | Authenticate (username password : String)
  | UpdateData (id data : String)
  deriving DecidableEq, Repr

/-- The database after one call, whether the call returned an error or not. -/
def Store.call (s : Store) (db : DB) : Call → DB
  | .Create id username password data => (s.Create db id username password data).2
  | .Get id => (s.Get db id).2
  | .UpdatePassword id oldPassword newPassword => (s.UpdatePassword db id oldPassword newPassword).2
  | .UpdateUsername id username password => (s.UpdateUsername db id username password).2
  | .Delete id => (s.Delete db id).2
  | .Authenticate username password => (s.Authenticate db username password).2
  | .UpdateData id data => (s.UpdateData db id data).2

/-- The database after a sequence of calls. -/
def Store.calls (s : Store) (db : DB) (cs : List Call) : DB := cs.foldl s.call db

/-- The password parameter of a command that writes the password column is a
value that `Hash` returned for some plaintext. -/
def Command.writesHash (h : Hasher) : Command → Prop
  | .insertRow _ _ password _ => ∃ p, h.Hash p = .ok password
  | .setPassword _ password => ∃ p, h.Hash p = .ok password
  | _ => True

/-- The invariant of the database: ids are distinct, usernames are distinct,
every stored password is a value that `Hash` returned for some plaintext, and
so is the password parameter of every write sent so far. -/
def Inv (h : Hasher) (db : DB) : Prop :=
  UniqueIDs db.rows ∧ UniqueUsernames db.rows ∧
  (∀ r ∈ db.rows, ∃ p, h.Hash p = .ok r.password) ∧
  (∀ c, Stmt.exec c ∈ db.log → c.writesHash h)

/-! ## Concrete hashers and tables used to evaluate the store -/

/-- A hasher that tags the plaintext: `Hash p = "h:" ++ p`, and `Compare`
accepts exactly that value. -/
def tagHasher : Hasher where
  Hash p := .ok ("h:" ++ p)
  Compare h p := if h = "h:" ++ p then none else some (.hasher "mismatch")

/-- A hasher that only looks at the first four characters of the plaintext
(as bcrypt only looks at the first 72 bytes): `Compare h p` succeeds exactly
when `h` is `Hash p`, and two plaintexts with the same first four characters
have the same hash. -/
def truncHasher : Hasher where
  Hash p := .ok ⟨p.data.take 4⟩
  Compare h p := if h = ⟨p.data.take 4⟩ then none else some (.hasher "mismatch")

/-- A hasher like `tagHasher` whose `Hash` refuses the empty plaintext. -/
def strictHasher : Hasher where
  Hash p := if p = "" then .error (.hasher "empty password") else .ok ("h:" ++ p)
  Compare h p := if h = "h:" ++ p then none else some (.hasher "mismatch")

/-- The empty table, no failure pending, nothing sent yet. -/
def emptyDB : DB := ⟨[], [], []⟩

/-- A table holding the single account `u1` / `alice`, whose password
`secret` was hashed by `tagHasher`; no failure pending, nothing sent yet. -/
def aliceDB : DB := ⟨[⟨"u1", "alice", "h:secret", "[]"⟩], [], []⟩

/-- The table of `aliceDB` behind a handle whose next statement fails for a
reason outside the table. -/
def aliceDownDB : DB := ⟨[⟨"u1", "alice", "h:secret", "[]"⟩], [true], []⟩

/-- A table holding the single account `u1` / `alice`, whose password
`secret1` was hashed by `truncHasher`; no failure pending, nothing sent yet. -/
def truncDB : DB := ⟨[⟨"u1", "alice", "secr", "[]"⟩], [], []⟩

/-! ## Lemmas on the database model -/

theorem quiet_succ {n : Nat} {fs : List Bool} (h : quiet (n + 1) fs = true) :
    nextFails fs = false ∧ quiet n fs.tail = true := by
  cases fs with
  | nil => cases n <;> simp [quiet, nextFails]
  | cons f fs => simpa [quiet, nextFails] using h

theorem Exec_quiet (rows : List Row) (faults : List Bool) (log : List Stmt) (c : Command)
    (h : nextFails faults = false) :
    DB.Exec ⟨rows, faults, log⟩ c = match c.run rows with
      | .ok rows' => (none, ⟨rows', faults.tail, log ++ [Stmt.exec c]⟩)
      | .error e => (some e, ⟨rows, faults.tail, log ++ [Stmt.exec c]⟩) := by
  simp [DB.Exec, h]

theorem QueryRow_quiet (rows : List Row) (faults : List Bool) (log : List Stmt) (q : Query)
    (h : nextFails faults = false) :
    DB.QueryRow ⟨rows, faults, log⟩ q = match q.run rows with
      | some r => (.ok r, ⟨rows, faults.tail, log ++ [Stmt.query q]⟩)
      | none => (.error .ErrNoRows, ⟨rows, faults.tail, log ++ [Stmt.query q]⟩) := by
  simp [DB.QueryRow, h]

theorem cause_errorsNew (e : Error) : (errorsNew e).cause = e.cause := by
  simp [errorsNew, Error.cause]

theorem find?_append_new (rows : List Row) (r : Row) (p : Row → Bool)
    (h : ∀ x ∈ rows, p x = false) (hr : p r = true) : (rows ++ [r]).find? p = some r := by
  induction rows with
  | nil => simp [hr]
  | cons x xs ih =>
    have hx : p x = false := h x (List.mem_cons_self _ _)
    simp only [List.cons_append, List.find?_cons, hx]
    exact ih (fun y hy => h y (List.mem_cons_of_mem _ hy))

/-- With distinct keys, the lookup by key yields the one row that has it. -/
theorem find?_of_nodup {κ : Type} [DecidableEq κ] (key : Row → κ) (rows : List Row)
    (hn : (rows.map key).Nodup) (r : Row) (hr : r ∈ rows) :
    rows.find? (fun x => decide (key x = key r)) = some r := by
  induction rows with
  | nil => cases hr
  | cons x xs ih =>
    rw [List.map_cons, List.nodup_cons] at hn
    rcases List.mem_cons.mp hr with rfl | hmem
    · simp
    · have hne : key x ≠ key r := fun h => hn.1 (h ▸ List.mem_map_of_mem key hmem)
      simp only [List.find?_cons, hne, decide_False]
      exact ih hn.2 hmem

theorem find?_id_of_unique (rows : List Row) (hu : UniqueIDs rows) (r : Row) (hr : r ∈ rows)
    (id : String) (hid : r.id = id) : rows.find? (fun x => decide (x.id = id)) = some r := by
  subst hid
  exact find?_of_nodup Row.id rows hu r hr

theorem find?_username_of_unique (rows : List Row) (hu : UniqueUsernames rows) (r : Row)
    (hr : r ∈ rows) (username : String) (hn : r.username = username) :
    rows.find? (fun x => decide (x.username = username)) = some r := by
  subst hn
  exact find?_of_nodup Row.username rows hu r hr

/-- The result of `Get` when the read goes through. -/
theorem Get_quiet (s : Store) (rows : List Row) (faults : List Bool) (log : List Stmt)
    (id : String) (h : nextFails faults = false) :
    s.Get ⟨rows, faults, log⟩ id =
      match rows.find? (fun x => decide (x.id = id)) with
      | some r => (.ok (Scan r), ⟨rows, faults.tail, log ++ [Stmt.query (.byId id)]⟩)
      | none => (.error .ErrNotFound, ⟨rows, faults.tail, log ++ [Stmt.query (.byId id)]⟩) := by
  simp only [Store.Get, QueryRow_quiet _ _ _ _ h, Query.run]
  cases rows.find? (fun x => decide (x.id = id)) <;> rfl

/-- The result of `Authenticate` when the read goes through. -/
theorem Authenticate_quiet (s : Store) (rows : List Row) (faults : List Bool) (log : List Stmt)
    (username password : String) (h : nextFails faults = false) :
    s.Authenticate ⟨rows, faults, log⟩ username password =
      match rows.find? (fun x => decide (x.username = username)) with
      | some r =>
        match s.hasher.Compare r.password password with
        | some err => (.error err, ⟨rows, faults.tail, log ++ [Stmt.query (.byUsername username)]⟩)
        | none => (.ok (Scan r), ⟨rows, faults.tail, log ++ [Stmt.query (.byUsername username)]⟩)
      | none =>
        (.error .ErrNotFound, ⟨rows, faults.tail, log ++ [Stmt.query (.byUsername username)]⟩) := by
  simp only [Store.Authenticate, QueryRow_quiet _ _ _ _ h, Query.run]
  cases rows.find? (fun x => decide (x.username = username)) <;> rfl

/-- A query changes no row. -/
theorem QueryRow_rows (db : DB) (q : Query) : (db.QueryRow q).2.rows = db.rows := by
  unfold DB.QueryRow
  split
  · rfl
  · split <;> rfl

theorem Get_rows (s : Store) (db : DB) (id : String) : (s.Get db id).2.rows = db.rows := by
  have h := QueryRow_rows db (.byId id)
  unfold Store.Get
  split <;> simp_all

theorem Authenticate_rows (s : Store) (db : DB) (username password : String) :
    (s.Authenticate db username password).2.rows = db.rows := by
  have h := QueryRow_rows db (.byUsername username)
  unfold Store.Authenticate
  split
  · simp_all
  · simp_all
  · split <;> simp_all

/-! ## Create, Get, Authenticate -/

/-- C1: on a table holding neither the id nor the username, when `Hash`
returns `hashed` for the password and neither the insert nor the following read
fails, `Create` returns the account `(id, username, hashed, data)`, appends that
row, and `Get(id)` afterwards returns that same account; a hasher whose
`Compare` accepts its own `Hash` output accepts the stored password against the
plaintext. -/
theorem Create_then_Get (s : Store) (db : DB) (id username password data hashed : String)
    (hid : ∀ r ∈ db.rows, r.id ≠ id) (hun : ∀ r ∈ db.rows, r.username ≠ username)
    (hhash : s.hasher.Hash password = .ok hashed)
    (hq : quiet 2 db.faults = true) :
    (s.Create db id username password data).1 = .ok ⟨id, username, hashed, data⟩ ∧
    (s.Create db id username password data).2.rows = db.rows ++ [⟨id, username, hashed, data⟩] ∧
    (s.Get (s.Create db id username password data).2 id).1 = .ok ⟨id, username, hashed, data⟩ ∧
    ((∀ p h, s.hasher.Hash p = .ok h → s.hasher.Compare h p = none) →
      s.hasher.Compare hashed password = none) := by
  obtain ⟨rows, faults, log⟩ := db
  simp only at hid hun hq
  obtain ⟨h1, hq1⟩ := quiet_succ hq
  obtain ⟨h2, -⟩ := quiet_succ hq1
  have hany1 : rows.any (fun r => decide (r.id = id)) = false := by
    simpa [List.any_eq_false] using hid
  have hany2 : rows.any (fun r => decide (r.username = username)) = false := by
    simpa [List.any_eq_false] using hun
  have hrun : (Command.insertRow id username hashed data).run rows
      = .ok (rows ++ [⟨id, username, hashed, data⟩]) := by
    simp [Command.run, hany1, hany2]
  have hc : s.Create ⟨rows, faults, log⟩ id username password data
      = (.ok ⟨id, username, hashed, data⟩,
          ⟨rows ++ [⟨id, username, hashed, data⟩], faults.tail,
            log ++ [Stmt.exec (.insertRow id username hashed data)]⟩) := by
    simp [Store.Create, hhash, Exec_quiet _ _ _ _ h1, hrun]
  have hfind : (rows ++ [(⟨id, username, hashed, data⟩ : Row)]).find?
      (fun r => decide (r.id = id)) = some ⟨id, username, hashed, data⟩ :=
    find?_append_new _ _ _ (by simpa using hid) (by simp)
  refine ⟨by rw [hc], by rw [hc], ?_, fun hcmp => hcmp _ _ hhash⟩
  rw [hc, Get_quiet _ _ _ _ _ h2, hfind]
  rfl

/-- Witness of C1: `Create("u1", "alice", "secret", "[]")` on the empty table
with the tagging hasher, then `Get("u1")`. -/
theorem Create_then_Get_witness :
    ((Store.mk tagHasher).Create emptyDB "u1" "alice" "secret" "[]").1
        = .ok ⟨"u1", "alice", "h:secret", "[]"⟩ ∧
    ((Store.mk tagHasher).Get
        ((Store.mk tagHasher).Create emptyDB "u1" "alice" "secret" "[]").2 "u1").1
        = .ok ⟨"u1", "alice", "h:secret", "[]"⟩ ∧
    tagHasher.Compare "h:secret" "secret" = none :=
  have h := Create_then_Get (Store.mk tagHasher) emptyDB "u1" "alice" "secret" "[]" "h:secret"
    (by decide) (by decide) rfl (by decide)
  ⟨h.1, h.2.2.1, h.2.2.2 (by
    intro p h hp
    have hh : "h:" ++ p = h := by simpa [tagHasher] using hp
    simp [tagHasher, hh])⟩

/-- C2: on a table with distinct usernames, when the read does not fail,
`Authenticate(username, password)` succeeds exactly when some row has that
username and `Compare` accepts the password against its stored hash, and it then
returns that row; with no such username it fails with `ErrNotFound`; with the
row present and `Compare` failing it fails with the error of `Compare`; the rows
are as before. -/
theorem Authenticate_spec (s : Store) (db : DB) (username password : String)
    (hu : UniqueUsernames db.rows) (hq : quiet 1 db.faults = true) :
    ((∃ a, (s.Authenticate db username password).1 = .ok a) ↔
      ∃ r ∈ db.rows, r.username = username ∧ s.hasher.Compare r.password password = none) ∧
    (∀ r ∈ db.rows, r.username = username → s.hasher.Compare r.password password = none →
      (s.Authenticate db username password).1 = .ok (Scan r)) ∧
    ((∀ r ∈ db.rows, r.username ≠ username) →
      (s.Authenticate db username password).1 = .error .ErrNotFound) ∧
    (∀ r ∈ db.rows, r.username = username → ∀ e, s.hasher.Compare r.password password = some e →
      (s.Authenticate db username password).1 = .error e) ∧
    (s.Authenticate db username password).2.rows = db.rows := by
  obtain ⟨rows, faults, log⟩ := db
  simp only at hu hq
  obtain ⟨h1, -⟩ := quiet_succ hq
  have hok : ∀ r ∈ rows, r.username = username → s.hasher.Compare r.password password = none →
      (s.Authenticate ⟨rows, faults, log⟩ username password).1 = .ok (Scan r) := by
    intro r hr hn hc
    rw [Authenticate_quiet _ _ _ _ _ _ h1, find?_username_of_unique rows hu r hr username hn]
    simp [hc]
  refine ⟨⟨?_, ?_⟩, hok, ?_, ?_, Authenticate_rows _ _ _ _⟩
  · rintro ⟨a, ha⟩
    rw [Authenticate_quiet _ _ _ _ _ _ h1] at ha
    cases hf : rows.find? (fun x => decide (x.username = username)) with
    | none => simp [hf] at ha
    | some r =>
      have hmem : r ∈ rows := List.mem_of_find?_eq_some hf
      have hname : r.username = username := by simpa using List.find?_some hf
      cases hc : s.hasher.Compare r.password password with
      | some e => simp [hf, hc] at ha
      | none => exact ⟨r, hmem, hname, hc⟩
  · rintro ⟨r, hr, hn, hc⟩
    exact ⟨_, hok r hr hn hc⟩
  · intro hno
    have hf : rows.find? (fun x => decide (x.username = username)) = none := by
      simpa [List.find?_eq_none] using hno
    rw [Authenticate_quiet _ _ _ _ _ _ h1, hf]
  · intro r hr hn e hc
    rw [Authenticate_quiet _ _ _ _ _ _ h1, find?_username_of_unique rows hu r hr username hn]
    simp [hc]

/-- Witness of C2: `Authenticate("alice", "secret")` on the table holding
alice. -/
theorem Authenticate_spec_witness :
    ((Store.mk tagHasher).Authenticate aliceDB "alice" "secret").1
      = .ok ⟨"u1", "alice", "h:secret", "[]"⟩ ∧
    ((Store.mk tagHasher).Authenticate aliceDB "alice" "wrong").1
      = .error (.hasher "mismatch") ∧
    ((Store.mk tagHasher).Authenticate aliceDB "alice" "secret").2.rows = aliceDB.rows :=
  have h := Authenticate_spec (Store.mk tagHasher) aliceDB "alice" "secret"
    (by decide) (by decide)
  have h2 := Authenticate_spec (Store.mk tagHasher) aliceDB "alice" "wrong"
    (by decide) (by decide)
  ⟨h.2.1 ⟨"u1", "alice", "h:secret", "[]"⟩ (by decide) rfl (by decide),
   h2.2.2.2.1 ⟨"u1", "alice", "h:secret", "[]"⟩ (by decide) rfl _ (by decide),
   h.2.2.2.2⟩

/-! ## Re-authentication and the two updates behind it -/

/-- The result of `authenticateWithIDAndPassword` when the read goes through. -/
theorem authenticateWithIDAndPassword_quiet (s : Store) (rows : List Row) (faults : List Bool)
    (log : List Stmt) (id password : String) (h : nextFails faults = false) :
    s.authenticateWithIDAndPassword ⟨rows, faults, log⟩ id password =
      match rows.find? (fun x => decide (x.id = id)) with
      | some r =>
        match s.hasher.Compare r.password password with
        | some err => (.error (errorsNew err), ⟨rows, faults.tail, log ++ [Stmt.query (.byId id)]⟩)
        | none => (.ok (Scan r), ⟨rows, faults.tail, log ++ [Stmt.query (.byId id)]⟩)
      | none =>
        (.error (errorsNew .ErrNotFound), ⟨rows, faults.tail, log ++ [Stmt.query (.byId id)]⟩) := by
  simp only [Store.authenticateWithIDAndPassword, Get_quiet _ _ _ _ _ h]
  cases rows.find? (fun x => decide (x.id = id)) <;> rfl

/-- The result of `Get` when the read fails. -/
theorem Get_fault (s : Store) (rows : List Row) (faults : List Bool) (log : List Stmt)
    (id : String) (h : nextFails faults = true) :
    s.Get ⟨rows, faults, log⟩ id =
      (.error (errorsNew (.sql .driver)), ⟨rows, faults.tail, log ++ [Stmt.query (.byId id)]⟩) := by
  simp [Store.Get, DB.QueryRow, h]

/-- A successful `Get` returns the first row with the id. -/
theorem Get_ok (s : Store) (db : DB) (id : String) (a : DefaultAccount)
    (h : (s.Get db id).1 = .ok a) :
    ∃ r, db.rows.find? (fun x => decide (x.id = id)) = some r ∧ a = Scan r := by
  obtain ⟨rows, faults, log⟩ := db
  cases hf : nextFails faults with
  | true => simp [Get_fault _ _ _ _ _ hf] at h
  | false =>
    rw [Get_quiet _ _ _ _ _ hf] at h
    cases hfind : rows.find? (fun x => decide (x.id = id)) with
    | none => simp [hfind] at h
    | some r =>
      simp only [hfind, Except.ok.injEq] at h
      exact ⟨r, rfl, h.symm⟩

/-- A successful `authenticateWithIDAndPassword` returns the first row with the
id, and `Compare` accepted the password against its stored hash. -/
theorem authenticateWithIDAndPassword_ok (s : Store) (db : DB) (id password : String)
    (a : DefaultAccount) (h : (s.authenticateWithIDAndPassword db id password).1 = .ok a) :
    ∃ r, db.rows.find? (fun x => decide (x.id = id)) = some r ∧ a = Scan r ∧
      s.hasher.Compare r.password password = none := by
  unfold Store.authenticateWithIDAndPassword at h
  split at h
  · simp at h
  · rename_i acc db1 heq
    have hget : (s.Get db id).1 = .ok acc := by rw [heq]
    obtain ⟨r, hfind, hacc⟩ := Get_ok s db id acc hget
    split at h
    · simp at h
    · rename_i hcmp
      simp only [Except.ok.injEq] at h
      subst h
      subst hacc
      exact ⟨r, hfind, rfl, hcmp⟩

/-- C3 (what the code does): whenever `UpdateUsername` succeeds, the account it
returns has the id and data of the row found by id and the new username, and its
`GetPassword` is the username that row had before the call. -/
theorem UpdateUsername_returns_old_username (s : Store) (db : DB) (id username password : String)
    (a : DefaultAccount) (h : (s.UpdateUsername db id username password).1 = .ok a) :
    ∃ r, db.rows.find? (fun x => decide (x.id = id)) = some r ∧
      s.hasher.Compare r.password password = none ∧
      a.GetID = r.id ∧ a.GetUsername = username ∧ a.GetData = r.data ∧
      a.GetPassword = r.username := by
  unfold Store.UpdateUsername at h
  split at h
  · simp at h
  · rename_i acc db1 heq
    have hauth : (s.authenticateWithIDAndPassword db id password).1 = .ok acc := by rw [heq]
    obtain ⟨r, hfind, hacc, hcmp⟩ := authenticateWithIDAndPassword_ok s db id password acc hauth
    split at h
    · simp at h
    · simp only [Except.ok.injEq] at h
      subst h
      subst hacc
      exact ⟨r, hfind, hcmp, rfl, rfl, rfl, rfl⟩

/-- C3 at a concrete input: on the table holding `("u1", "alice", "h:secret",
"[]")`, `UpdateUsername("u1", "bob", "secret")` succeeds and the account it
returns answers `GetPassword` with `"alice"`, the old username, not with the
stored hash `"h:secret"`. -/
theorem UpdateUsername_returns_old_username_witness :
    ((Store.mk tagHasher).UpdateUsername aliceDB "u1" "bob" "secret").1
      = .ok ⟨"u1", "bob", "alice", "[]"⟩ ∧
    (∃ r, aliceDB.rows.find? (fun x => decide (x.id = "u1")) = some r ∧
      tagHasher.Compare r.password "secret" = none ∧
      DefaultAccount.GetID ⟨"u1", "bob", "alice", "[]"⟩ = r.id ∧
      DefaultAccount.GetUsername ⟨"u1", "bob", "alice", "[]"⟩ = "bob" ∧
      DefaultAccount.GetData ⟨"u1", "bob", "alice", "[]"⟩ = r.data ∧
      DefaultAccount.GetPassword ⟨"u1", "bob", "alice", "[]"⟩ = r.username) ∧
    DefaultAccount.GetPassword ⟨"u1", "bob", "alice", "[]"⟩ ≠ "h:secret" :=
  ⟨rfl,
   UpdateUsername_returns_old_username (Store.mk tagHasher) aliceDB "u1" "bob" "secret"
     ⟨"u1", "bob", "alice", "[]"⟩ rfl,
   by decide⟩

/-- C4, amended: on a table with distinct ids that holds a row with the id,
when `Compare` rejects `oldPassword` against that row's stored hash with the
error `e`, for every `newPassword`: `UpdatePassword` returns no account, sends
the `SELECT` by id and nothing else, and leaves the rows as they were; when the
`SELECT` does not fail the error returned is `e` wrapped by `errors.New` (its
cause is the cause of `e`), and when the `SELECT` fails it is the error of the
database, wrapped by `Get` and by `authenticateWithIDAndPassword`. -/
theorem UpdatePassword_wrong_old (s : Store) (db : DB) (id oldPassword newPassword : String)
    (r : Row) (e : Error) (hu : UniqueIDs db.rows) (hr : r ∈ db.rows) (hid : r.id = id)
    (hcmp : s.hasher.Compare r.password oldPassword = some e) :
    (∀ a, (s.UpdatePassword db id oldPassword newPassword).1 ≠ .ok a) ∧
    (s.UpdatePassword db id oldPassword newPassword).2.rows = db.rows ∧
    (s.UpdatePassword db id oldPassword newPassword).2.log
      = db.log ++ [Stmt.query (.byId id)] ∧
    (nextFails db.faults = false →
      (s.UpdatePassword db id oldPassword newPassword).1 = .error (errorsNew e) ∧
      (errorsNew e).cause = e.cause) ∧
    (nextFails db.faults = true →
      (s.UpdatePassword db id oldPassword newPassword).1
        = .error (errorsNew (errorsNew (.sql .driver)))) := by
  obtain ⟨rows, faults, log⟩ := db
  simp only at hu hr
  cases hf : nextFails faults with
  | false =>
    have hup : s.UpdatePassword ⟨rows, faults, log⟩ id oldPassword newPassword
        = (.error (errorsNew e), ⟨rows, faults.tail, log ++ [Stmt.query (.byId id)]⟩) := by
      simp only [Store.UpdatePassword, authenticateWithIDAndPassword_quiet _ _ _ _ _ _ hf,
        find?_id_of_unique rows hu r hr id hid, hcmp]
    rw [hup]
    exact ⟨fun a h => by simp at h, rfl, rfl, fun _ => ⟨rfl, cause_errorsNew e⟩,
      fun h => by simp [hf] at h⟩
  | true =>
    have hup : s.UpdatePassword ⟨rows, faults, log⟩ id oldPassword newPassword
        = (.error (errorsNew (errorsNew (.sql .driver))),
            ⟨rows, faults.tail, log ++ [Stmt.query (.byId id)]⟩) := by
      simp only [Store.UpdatePassword, Store.authenticateWithIDAndPassword,
        Get_fault _ _ _ _ _ hf]
    rw [hup]
    exact ⟨fun a h => by simp at h, rfl, rfl, fun h => by simp [hf] at h, fun _ => rfl⟩

/-- Witness of C4, amended: `UpdatePassword("u1", "wrong", "next")` on the
table holding alice. -/
theorem UpdatePassword_wrong_old_witness :
    ((Store.mk tagHasher).UpdatePassword aliceDB "u1" "wrong" "next").1
      = .error (.traced (.hasher "mismatch")) ∧
    ((Store.mk tagHasher).UpdatePassword aliceDB "u1" "wrong" "next").2.rows = aliceDB.rows ∧
    ((Store.mk tagHasher).UpdatePassword aliceDB "u1" "wrong" "next").2.log
      = [Stmt.query (.byId "u1")] :=
  have h := UpdatePassword_wrong_old (Store.mk tagHasher) aliceDB "u1" "wrong" "next"
    ⟨"u1", "alice", "h:secret", "[]"⟩ (.hasher "mismatch") (by decide) (by decide) rfl
    (by decide)
  ⟨(h.2.2.2.1 (by decide)).1, h.2.1, h.2.2.1⟩

/-- C4 as stated fails: the table holds the row `u1` of alice, `Compare` rejects
`"wrong"` against her stored hash, and the `SELECT` of `UpdatePassword("u1",
"wrong", "next")` fails; the call returns the error of the database, wrapped
twice, whose cause is no error of `Compare`. The rows are unchanged and only the
`SELECT` was sent. -/
theorem UpdatePassword_wrong_old_read_fails :
    (⟨"u1", "alice", "h:secret", "[]"⟩ : Row) ∈ aliceDownDB.rows ∧
    UniqueIDs aliceDownDB.rows ∧
    tagHasher.Compare "h:secret" "wrong" = some (.hasher "mismatch") ∧
    ((Store.mk tagHasher).UpdatePassword aliceDownDB "u1" "wrong" "next").1
      = .error (.traced (.traced (.sql .driver))) ∧
    ((Store.mk tagHasher).UpdatePassword aliceDownDB "u1" "wrong" "next").1
      ≠ .error (errorsNew (.hasher "mismatch")) ∧
    Error.cause (.traced (.traced (.sql .driver))) = .sql .driver ∧
    ((Store.mk tagHasher).UpdatePassword aliceDownDB "u1" "wrong" "next").2.rows
      = aliceDownDB.rows ∧
    ((Store.mk tagHasher).UpdatePassword aliceDownDB "u1" "wrong" "next").2.log
      = [Stmt.query (.byId "u1")] := by
  refine ⟨by decide, by decide, rfl, rfl, ?_, rfl, rfl, rfl⟩
  intro h
  have h2 : (Except.error (Error.traced (.traced (.sql .driver))) :
      Except Error DefaultAccount) = .error (errorsNew (.hasher "mismatch")) := h
  simp [errorsNew] at h2

/-! ## UpdatePassword followed by Authenticate -/

/-- The result of `UpdatePassword` when the old password is accepted, the new
one is hashed and neither statement fails. -/
theorem UpdatePassword_quiet (s : Store) (rows : List Row) (faults : List Bool) (log : List Stmt)
    (id oldPassword newPassword hashed : String) (r : Row)
    (hfind : rows.find? (fun x => decide (x.id = id)) = some r)
    (hcmp : s.hasher.Compare r.password oldPassword = none)
    (hhash : s.hasher.Hash newPassword = .ok hashed)
    (h1 : nextFails faults = false) (h2 : nextFails faults.tail = false) :
    s.UpdatePassword ⟨rows, faults, log⟩ id oldPassword newPassword =
      (.ok ⟨r.id, r.username, hashed, r.data⟩,
        ⟨rows.map (fun x => if x.id = id then { x with password := hashed } else x),
          faults.tail.tail,
          log ++ [Stmt.query (.byId id)] ++ [Stmt.exec (.setPassword id hashed)]⟩) := by
  simp only [Store.UpdatePassword, authenticateWithIDAndPassword_quiet _ _ _ _ _ _ h1, hfind,
    hcmp, hhash, Exec_quiet _ _ _ _ h2, Command.run]
  rfl

/-- C5, amended: with a hasher whose `Compare(h, p)` succeeds exactly when `h`
is the `Hash` output of `p`, on a valid table holding the row `(id, username,
Hash(old), data)`, when `Hash(newPassword)` succeeds with a value different from
`Hash(old)` and no statement fails: `UpdatePassword(id, old, newPassword)`
succeeds, and afterwards `Authenticate(username, newPassword)` succeeds while
`Authenticate(username, old)` fails with the error of `Compare`. -/
theorem UpdatePassword_then_Authenticate (s : Store) (db : DB)
    (id username old newPassword hashedOld hashedNew data : String)
    (hv : Valid db.rows) (hr : (⟨id, username, hashedOld, data⟩ : Row) ∈ db.rows)
    (hspec : ∀ h p, s.hasher.Compare h p = none ↔ s.hasher.Hash p = .ok h)
    (hold : s.hasher.Hash old = .ok hashedOld)
    (hnew : s.hasher.Hash newPassword = .ok hashedNew)
    (hne : hashedNew ≠ hashedOld) (hq : quiet 3 db.faults = true) :
    (s.UpdatePassword db id old newPassword).1 = .ok ⟨id, username, hashedNew, data⟩ ∧
    (s.Authenticate (s.UpdatePassword db id old newPassword).2 username newPassword).1
      = .ok ⟨id, username, hashedNew, data⟩ ∧
    ∃ e, s.hasher.Compare hashedNew old = some e ∧
      (s.Authenticate (s.UpdatePassword db id old newPassword).2 username old).1 = .error e := by
  obtain ⟨rows, faults, log⟩ := db
  simp only at hv hr hq
  obtain ⟨h1, hq1⟩ := quiet_succ hq
  obtain ⟨h2, hq2⟩ := quiet_succ hq1
  obtain ⟨h3, -⟩ := quiet_succ hq2
  have hfind := find?_id_of_unique rows hv.1 _ hr id rfl
  have hup := UpdatePassword_quiet s rows faults log id old newPassword hashedNew _ hfind
    ((hspec _ _).mpr hold) hnew h1 h2
  simp only at hup
  have hnames : UniqueUsernames
      (rows.map (fun x => if x.id = id then { x with password := hashedNew } else x)) := by
    have hmap : (rows.map (fun x => if x.id = id then { x with password := hashedNew } else x)).map
        Row.username = rows.map Row.username := by
      rw [List.map_map]
      apply List.map_congr_left
      intro x _
      by_cases hx : x.id = id <;> simp [hx]
    unfold UniqueUsernames
    rw [hmap]
    exact hv.2
  have hmem : (⟨id, username, hashedNew, data⟩ : Row) ∈
      rows.map (fun x => if x.id = id then { x with password := hashedNew } else x) := by
    have := List.mem_map_of_mem
      (fun x : Row => if x.id = id then { x with password := hashedNew } else x) hr
    simpa using this
  have hfind2 := find?_username_of_unique _ hnames _ hmem username rfl
  have hrej : ∃ e, s.hasher.Compare hashedNew old = some e := by
    cases hc : s.hasher.Compare hashedNew old with
    | some e => exact ⟨e, rfl⟩
    | none =>
      have := (hspec _ _).mp hc
      rw [hold] at this
      exact absurd (Except.ok.inj this).symm hne
  obtain ⟨e, he⟩ := hrej
  rw [hup]
  refine ⟨rfl, ?_, e, he, ?_⟩
  · rw [Authenticate_quiet _ _ _ _ _ _ h3, hfind2]
    simp [(hspec _ _).mpr hnew, Scan]
  · rw [Authenticate_quiet _ _ _ _ _ _ h3, hfind2]
    simp [he]

/-- Witness of C5, amended: alice changes her password from `secret` to `next`
under the tagging hasher. -/
theorem UpdatePassword_then_Authenticate_witness :
    ((Store.mk tagHasher).UpdatePassword aliceDB "u1" "secret" "next").1
      = .ok ⟨"u1", "alice", "h:next", "[]"⟩ ∧
    ((Store.mk tagHasher).Authenticate
        ((Store.mk tagHasher).UpdatePassword aliceDB "u1" "secret" "next").2 "alice" "next").1
      = .ok ⟨"u1", "alice", "h:next", "[]"⟩ ∧
    ∃ e, tagHasher.Compare "h:next" "secret" = some e ∧
      ((Store.mk tagHasher).Authenticate
        ((Store.mk tagHasher).UpdatePassword aliceDB "u1" "secret" "next").2 "alice" "secret").1
      = .error e :=
  UpdatePassword_then_Authenticate (Store.mk tagHasher) aliceDB
    "u1" "alice" "secret" "next" "h:secret" "h:next" "[]"
    (by decide) (by decide)
    (by
      intro h p
      simp only [tagHasher]
      constructor
      · intro hc
        by_cases hh : h = "h:" ++ p
        · rw [hh]
        · simp [hh] at hc
      · intro hc
        have hh : "h:" ++ p = h := by simpa using hc
        simp [hh])
    rfl rfl (by decide) (by decide)

/-- C5 as stated fails: `truncHasher` satisfies "`Compare(h, p)` succeeds exactly
when `h` is the `Hash` output of `p`", the table holds `("u1", "alice",
Hash("secret1"), "[]")`, `"secret2"` differs from `"secret1"`, hashing and write
succeed, and after `UpdatePassword("u1", "secret1", "secret2")` the call
`Authenticate("alice", "secret1")` still succeeds. -/
theorem UpdatePassword_old_still_accepted :
    (∀ h p, truncHasher.Compare h p = none ↔ truncHasher.Hash p = .ok h) ∧
    truncHasher.Hash "secret1" = .ok "secr" ∧
    (⟨"u1", "alice", "secr", "[]"⟩ : Row) ∈ truncDB.rows ∧
    Valid truncDB.rows ∧
    "secret2" ≠ "secret1" ∧
    ((Store.mk truncHasher).UpdatePassword truncDB "u1" "secret1" "secret2").1
      = .ok ⟨"u1", "alice", "secr", "[]"⟩ ∧
    ((Store.mk truncHasher).UpdatePassword truncDB "u1" "secret1" "secret2").2.log
      = [Stmt.query (.byId "u1"), Stmt.exec (.setPassword "u1" "secr")] ∧
    ((Store.mk truncHasher).Authenticate
        ((Store.mk truncHasher).UpdatePassword truncDB "u1" "secret1" "secret2").2
        "alice" "secret2").1 = .ok ⟨"u1", "alice", "secr", "[]"⟩ ∧
    ((Store.mk truncHasher).Authenticate
        ((Store.mk truncHasher).UpdatePassword truncDB "u1" "secret1" "secret2").2
        "alice" "secret1").1 = .ok ⟨"u1", "alice", "secr", "[]"⟩ := by
  refine ⟨?_, rfl, by decide, by decide, by decide, rfl, rfl, rfl, rfl⟩
  intro h p
  simp only [truncHasher]
  constructor
  · intro hc
    by_cases hh : h = ⟨p.data.take 4⟩
    · rw [hh]
    · simp [hh] at hc
  · intro hc
    have hh : (⟨p.data.take 4⟩ : String) = h := by simpa using hc
    simp [hh]

/-! ## Delete -/

/-- The result of `Delete` when the statement goes through. -/
theorem Delete_quiet (s : Store) (rows : List Row) (faults : List Bool) (log : List Stmt)
    (id : String) (h : nextFails faults = false) :
    s.Delete ⟨rows, faults, log⟩ id =
      (none, ⟨rows.filter (fun r => decide (r.id ≠ id)), faults.tail,
        log ++ [Stmt.exec (.deleteRow id)]⟩) := by
  simp only [Store.Delete, Exec_quiet _ _ _ _ h, Command.run]

/-- C6: for every table and every id, with or without a row of that id, when
the statements do not fail `Delete(id)` returns no error, the rows afterwards
are the rows with another id, unchanged and in their order, `Get(id)` then fails
with `ErrNotFound`, and a second `Delete(id)` returns no error and leaves the
rows of the first. -/
theorem Delete_spec (s : Store) (db : DB) (id : String) (hq : quiet 2 db.faults = true) :
    (s.Delete db id).1 = none ∧
    (s.Delete db id).2.rows = db.rows.filter (fun r => decide (r.id ≠ id)) ∧
    (∀ r, r.id ≠ id → (r ∈ (s.Delete db id).2.rows ↔ r ∈ db.rows)) ∧
    (s.Get (s.Delete db id).2 id).1 = .error .ErrNotFound ∧
    (s.Delete (s.Delete db id).2 id).1 = none ∧
    (s.Delete (s.Delete db id).2 id).2.rows = (s.Delete db id).2.rows := by
  obtain ⟨rows, faults, log⟩ := db
  simp only at hq
  obtain ⟨h1, hq1⟩ := quiet_succ hq
  obtain ⟨h2, -⟩ := quiet_succ hq1
  have hnone : (rows.filter (fun r => decide (r.id ≠ id))).find? (fun x => decide (x.id = id))
      = none := by
    simp [List.find?_eq_none, List.mem_filter]
  rw [Delete_quiet _ _ _ _ _ h1]
  refine ⟨rfl, rfl, ?_, ?_, ?_, ?_⟩
  · intro r hr
    simp [List.mem_filter, hr]
  · rw [Get_quiet _ _ _ _ _ h2, hnone]
  · rw [Delete_quiet _ _ _ _ _ h2]
  · rw [Delete_quiet _ _ _ _ _ h2]
    simp [List.filter_filter]

/-- Witness of C6: `Delete("u2")` on the table holding only `u1`, an id with no
row. -/
theorem Delete_spec_witness :
    ((Store.mk tagHasher).Delete aliceDB "u2").1 = none ∧
    ((Store.mk tagHasher).Delete aliceDB "u2").2.rows = aliceDB.rows ∧
    ((Store.mk tagHasher).Get ((Store.mk tagHasher).Delete aliceDB "u2").2 "u2").1
      = .error .ErrNotFound :=
  have h := Delete_spec (Store.mk tagHasher) aliceDB "u2" (by decide)
  ⟨h.1, h.2.1, h.2.2.2.1⟩

/-! ## Create on a taken id or username -/

/-- A failing `Exec` changes no row. -/
theorem Exec_error_rows (db : DB) (c : Command) (e : SqlError) (h : (db.Exec c).1 = some e) :
    (db.Exec c).2.rows = db.rows := by
  unfold DB.Exec at h ⊢
  split
  · rfl
  · split
    · rename_i hrun
      simp [*] at h
    · rfl

/-- The `INSERT` of a taken id or username is refused. -/
theorem insertRow_taken (rows : List Row) (id username password data : String)
    (hdup : ∃ r ∈ rows, r.id = id ∨ r.username = username) :
    ∃ e, (Command.insertRow id username password data).run rows = .error e := by
  obtain ⟨r, hr, h⟩ := hdup
  simp only [Command.run]
  by_cases h1 : rows.any (fun r => decide (r.id = id)) = true
  · exact ⟨_, by rw [if_pos h1]⟩
  · have h2 : rows.any (fun r => decide (r.username = username)) = true := by
      rcases h with h | h
      · exact absurd (List.any_eq_true.mpr ⟨r, hr, by simpa using h⟩) h1
      · exact List.any_eq_true.mpr ⟨r, hr, by simpa using h⟩
    exact ⟨_, by rw [if_neg h1, if_pos h2]⟩

/-- C7, amended: on a table that holds a row with the id or a row with the
username, `Create` returns no account and leaves the rows as they were; when
`Hash` succeeds on the password the error is a wrapped error of the database (a
storage error), and when `Hash` fails the error is the one `Hash` returned and
no statement is sent. -/
theorem Create_taken (s : Store) (db : DB) (id username password data : String)
    (hdup : ∃ r ∈ db.rows, r.id = id ∨ r.username = username) :
    (∀ a, (s.Create db id username password data).1 ≠ .ok a) ∧
    (s.Create db id username password data).2.rows = db.rows ∧
    (∀ h, s.hasher.Hash password = .ok h →
      ∃ e, (s.Create db id username password data).1 = .error (.traced (.sql e))) ∧
    (∀ e, s.hasher.Hash password = .error e →
      s.Create db id username password data = (.error e, db)) := by
  cases hh : s.hasher.Hash password with
  | error e =>
    have hc : s.Create db id username password data = (.error e, db) := by
      simp [Store.Create, hh]
    rw [hc]
    exact ⟨fun a h => by simp at h, rfl, fun h hk => by simp at hk,
      fun e2 he => by rw [Except.error.inj he]⟩
  | ok hashed =>
    obtain ⟨e, he⟩ : ∃ e, (db.Exec (.insertRow id username hashed data)).1 = some e := by
      obtain ⟨e, hrun⟩ := insertRow_taken db.rows id username hashed data hdup
      unfold DB.Exec
      split
      · exact ⟨_, rfl⟩
      · exact ⟨e, by rw [hrun]⟩
    have hrows := Exec_error_rows db _ e he
    have hc : s.Create db id username password data
        = (.error (.traced (.sql e)), (db.Exec (.insertRow id username hashed data)).2) := by
      simp only [Store.Create, hh]
      generalize db.Exec (.insertRow id username hashed data) = res at he
      obtain ⟨r1, r2⟩ := res
      simp only at he
      subst he
      rfl
    rw [hc]
    exact ⟨fun a h => by simp at h, hrows, fun h _ => ⟨e, rfl⟩, fun e2 he2 => by simp at he2⟩

/-- Witness of C7, amended: right after a successful
`Create("u1", "alice", "secret", "[]")`, a second `Create` with the same
username and another id. -/
theorem Create_taken_witness :
    ((Store.mk tagHasher).Create emptyDB "u1" "alice" "secret" "[]").1
      = .ok ⟨"u1", "alice", "h:secret", "[]"⟩ ∧
    ((Store.mk tagHasher).Create
        ((Store.mk tagHasher).Create emptyDB "u1" "alice" "secret" "[]").2
        "u2" "alice" "pw" "[]").2.rows
      = ((Store.mk tagHasher).Create emptyDB "u1" "alice" "secret" "[]").2.rows ∧
    ∃ e, ((Store.mk tagHasher).Create
        ((Store.mk tagHasher).Create emptyDB "u1" "alice" "secret" "[]").2
        "u2" "alice" "pw" "[]").1 = .error (.traced (.sql e)) :=
  have h := Create_taken (Store.mk tagHasher)
    ((Store.mk tagHasher).Create emptyDB "u1" "alice" "secret" "[]").2 "u2" "alice" "pw" "[]"
    ⟨⟨"u1", "alice", "h:secret", "[]"⟩, by decide, Or.inr rfl⟩
  ⟨rfl, h.2.1, h.2.2.1 "h:pw" rfl⟩

/-- C7 as stated fails: with `strictHasher`, `Create("u1", "alice", "secret",
"[]")` succeeds on the empty table, and a second `Create` with the same id and
username and the empty password fails with the error of `Hash`, which is no
storage error; no `INSERT` is sent for it. -/
theorem Create_taken_hash_error :
    (Store.mk strictHasher).Create emptyDB "u1" "alice" "secret" "[]"
      = (.ok ⟨"u1", "alice", "h:secret", "[]"⟩,
          ⟨[⟨"u1", "alice", "h:secret", "[]"⟩], [],
            [Stmt.exec (.insertRow "u1" "alice" "h:secret" "[]")]⟩) ∧
    ((Store.mk strictHasher).Create
        ((Store.mk strictHasher).Create emptyDB "u1" "alice" "secret" "[]").2
        "u1" "alice" "" "[]").1 = .error (.hasher "empty password") ∧
    (∀ e, ((Store.mk strictHasher).Create
        ((Store.mk strictHasher).Create emptyDB "u1" "alice" "secret" "[]").2
        "u1" "alice" "" "[]").1 ≠ .error (errorsNew (.sql e))) ∧
    ((Store.mk strictHasher).Create
        ((Store.mk strictHasher).Create emptyDB "u1" "alice" "secret" "[]").2
        "u1" "alice" "" "[]").2.log = [Stmt.exec (.insertRow "u1" "alice" "h:secret" "[]")] := by
  refine ⟨rfl, rfl, ?_, rfl⟩
  intro e h
  have h2 : (Except.error (Error.hasher "empty password") : Except Error DefaultAccount)
      = .error (errorsNew (.sql e)) := h
  simp [errorsNew] at h2

/-! ## UpdateData -/

/-- An `UPDATE` of a column other than `id` keeps the ids. -/
theorem map_update_ids (rows : List Row) (id : String) (f : Row → Row)
    (hf : ∀ x, (f x).id = x.id) :
    (rows.map (fun x => if x.id = id then f x else x)).map Row.id = rows.map Row.id := by
  rw [List.map_map]
  apply List.map_congr_left
  intro x _
  by_cases hx : x.id = id <;> simp [hx, hf]

/-- An `UPDATE` of a column other than `username` keeps the usernames. -/
theorem map_update_usernames (rows : List Row) (id : String) (f : Row → Row)
    (hf : ∀ x, (f x).username = x.username) :
    (rows.map (fun x => if x.id = id then f x else x)).map Row.username
      = rows.map Row.username := by
  rw [List.map_map]
  apply List.map_congr_left
  intro x _
  by_cases hx : x.id = id <;> simp [hx, hf]

/-- An `UPDATE` that matches no row changes nothing. -/
theorem map_update_none (rows : List Row) (id : String) (f : Row → Row)
    (h : ∀ x ∈ rows, x.id ≠ id) :
    rows.map (fun x => if x.id = id then f x else x) = rows := by
  conv_rhs => rw [← List.map_id rows]
  apply List.map_congr_left
  intro x hx
  simp [h x hx]

/-- C9: on a table with distinct ids, when neither the `UPDATE` nor the read
after it fails, `UpdateData(id, data)`, which takes no password, either finds a
row with the id, sets the data of that row only, and returns the row with its
id, username and password hash as before and the new data, or finds no row with
the id, fails with `ErrNotFound` and leaves the rows as they were. -/
theorem UpdateData_spec (s : Store) (db : DB) (id data : String)
    (hu : UniqueIDs db.rows) (hq : quiet 2 db.faults = true) :
    (∀ r ∈ db.rows, r.id = id →
      (s.UpdateData db id data).1 = .ok ⟨r.id, r.username, r.password, data⟩ ∧
      (s.UpdateData db id data).2.rows
        = db.rows.map (fun x => if x.id = id then { x with data := data } else x)) ∧
    ((∀ r ∈ db.rows, r.id ≠ id) →
      (s.UpdateData db id data).1 = .error .ErrNotFound ∧
      (s.UpdateData db id data).2.rows = db.rows) ∧
    s.UpdateData db id data = s.Get (db.Exec (.setData id data)).2 id := by
  obtain ⟨rows, faults, log⟩ := db
  simp only at hu hq
  obtain ⟨h1, hq1⟩ := quiet_succ hq
  obtain ⟨h2, -⟩ := quiet_succ hq1
  have hup : s.UpdateData ⟨rows, faults, log⟩ id data
      = s.Get ⟨rows.map (fun x => if x.id = id then { x with data := data } else x),
          faults.tail, log ++ [Stmt.exec (.setData id data)]⟩ id := by
    simp only [Store.UpdateData, Exec_quiet _ _ _ _ h1, Command.run]
  refine ⟨?_, ?_, ?_⟩
  · intro r hr hid
    have hids : UniqueIDs
        (rows.map (fun x => if x.id = id then { x with data := data } else x)) := by
      unfold UniqueIDs
      rw [map_update_ids rows id (fun x => { x with data := data }) (fun _ => rfl)]
      exact hu
    have hmem : (⟨r.id, r.username, r.password, data⟩ : Row) ∈
        rows.map (fun x => if x.id = id then { x with data := data } else x) := by
      have := List.mem_map_of_mem
        (fun x : Row => if x.id = id then { x with data := data } else x) hr
      simpa [hid] using this
    have hfind := find?_id_of_unique _ hids _ hmem id hid
    have hres : s.UpdateData ⟨rows, faults, log⟩ id data
        = (.ok ⟨r.id, r.username, r.password, data⟩,
            ⟨rows.map (fun x => if x.id = id then { x with data := data } else x),
              faults.tail.tail,
              log ++ [Stmt.exec (.setData id data)] ++ [Stmt.query (.byId id)]⟩) := by
      rw [hup, Get_quiet _ _ _ _ _ h2, hfind]
      rfl
    rw [hres]
    exact ⟨rfl, rfl⟩
  · intro hno
    have hsame := map_update_none rows id (fun x => { x with data := data }) hno
    have hfind : rows.find? (fun x => decide (x.id = id)) = none := by
      simpa [List.find?_eq_none] using hno
    rw [hup, hsame, Get_quiet _ _ _ _ _ h2, hfind]
    exact ⟨rfl, rfl⟩
  · rw [hup, Exec_quiet _ _ _ _ h1]
    rfl

/-- Witness of C9: `UpdateData("u1", "[1]")` on the table holding alice. -/
theorem UpdateData_spec_witness :
    ((Store.mk tagHasher).UpdateData aliceDB "u1" "[1]").1
      = .ok ⟨"u1", "alice", "h:secret", "[1]"⟩ ∧
    ((Store.mk tagHasher).UpdateData aliceDB "u1" "[1]").2.rows
      = [⟨"u1", "alice", "h:secret", "[1]"⟩] ∧
    ((Store.mk tagHasher).UpdateData aliceDB "u2" "[1]").1 = .error .ErrNotFound ∧
    ((Store.mk tagHasher).UpdateData aliceDB "u2" "[1]").2.rows = aliceDB.rows :=
  have h := UpdateData_spec (Store.mk tagHasher) aliceDB "u1" "[1]" (by decide) (by decide)
  have h2 := UpdateData_spec (Store.mk tagHasher) aliceDB "u2" "[1]" (by decide) (by decide)
  have h1 := h.1 ⟨"u1", "alice", "h:secret", "[]"⟩ (by decide) rfl
  have h3 := h2.2.1 (by decide)
  ⟨h1.1, h1.2, h3.1, h3.2⟩

/-! ## UpdateUsername -/

/-- An `UPDATE` of the username that the unique constraint lets through keeps
the usernames distinct. -/
theorem map_setUsername_unique (rows : List Row) (id username : String)
    (hid : UniqueIDs rows) (hun : UniqueUsernames rows)
    (hfree : (∃ x ∈ rows, x.id = id) → ∀ y ∈ rows, y.id ≠ id → y.username ≠ username) :
    UniqueUsernames
      (rows.map (fun x => if x.id = id then { x with username := username } else x)) := by
  unfold UniqueUsernames
  rw [List.map_map]
  apply List.Nodup.map_on _ (List.Nodup.of_map _ hid)
  intro x hx y hy hxy
  simp only [Function.comp] at hxy
  by_cases hxi : x.id = id
  · by_cases hyi : y.id = id
    · exact List.inj_on_of_nodup_map hid hx hy (hxi.trans hyi.symm)
    · simp only [hxi, hyi, if_true, if_false] at hxy
      exact absurd hxy.symm (hfree ⟨x, hx, hxi⟩ y hy hyi)
  · by_cases hyi : y.id = id
    · simp only [hxi, hyi, if_true, if_false] at hxy
      exact absurd hxy (hfree ⟨y, hy, hyi⟩ x hx hxi)
    · simp only [hxi, hyi, if_false] at hxy
      exact List.inj_on_of_nodup_map hun hx hy hxy

/-- The unique constraint on `username` lets the `UPDATE` through when no row
with another id has the new username. -/
theorem setUsername_run (rows : List Row) (id username : String)
    (hfree : ∀ y ∈ rows, y.id ≠ id → y.username ≠ username) :
    (Command.setUsername id username).run rows
      = .ok (rows.map (fun x => if x.id = id then { x with username := username } else x)) := by
  have hany : rows.any (fun r => decide (r.id ≠ id ∧ r.username = username)) = false := by
    rw [List.any_eq_false]
    intro x hx
    have := hfree x hx
    simp only [decide_eq_true_eq, not_and]
    exact this
  simp only [Command.run, hany, Bool.and_false, Bool.false_eq_true, if_false]

/-- C10: on a valid table that holds the row `r` with the id, when `Compare`
accepts the password against the stored hash of `r`, no row with another id has
`newUsername` and no statement fails: `UpdateUsername` succeeds, the rows
afterwards are the rows before with the username of the row with that id set to
`newUsername` (its hash, its data and the other rows unchanged),
`Authenticate(newUsername, password)` then succeeds with that row, and
`Authenticate(oldUsername, password)` fails with `ErrNotFound` when the old
username differs from the new one. -/
theorem UpdateUsername_frame (s : Store) (db : DB) (id newUsername password : String) (r : Row)
    (hv : Valid db.rows) (hr : r ∈ db.rows) (hid : r.id = id)
    (hcmp : s.hasher.Compare r.password password = none)
    (hfree : ∀ y ∈ db.rows, y.id ≠ id → y.username ≠ newUsername)
    (hq : quiet 3 db.faults = true) :
    (∃ a, (s.UpdateUsername db id newUsername password).1 = .ok a) ∧
    (s.UpdateUsername db id newUsername password).2.rows
      = db.rows.map (fun x => if x.id = id then { x with username := newUsername } else x) ∧
    (⟨r.id, newUsername, r.password, r.data⟩ : Row)
      ∈ (s.UpdateUsername db id newUsername password).2.rows ∧
    (s.Authenticate (s.UpdateUsername db id newUsername password).2 newUsername password).1
      = .ok ⟨r.id, newUsername, r.password, r.data⟩ ∧
    (r.username ≠ newUsername →
      (s.Authenticate (s.UpdateUsername db id newUsername password).2 r.username password).1
        = .error .ErrNotFound) := by
  obtain ⟨rows, faults, log⟩ := db
  simp only at hv hr hfree hq
  obtain ⟨h1, hq1⟩ := quiet_succ hq
  obtain ⟨h2, hq2⟩ := quiet_succ hq1
  obtain ⟨h3, -⟩ := quiet_succ hq2
  have hfind := find?_id_of_unique rows hv.1 r hr id hid
  have hup : s.UpdateUsername ⟨rows, faults, log⟩ id newUsername password
      = (.ok ⟨r.id, newUsername, r.username, r.data⟩,
          ⟨rows.map (fun x => if x.id = id then { x with username := newUsername } else x),
            faults.tail.tail,
            log ++ [Stmt.query (.byId id)] ++ [Stmt.exec (.setUsername id newUsername)]⟩) := by
    simp only [Store.UpdateUsername, authenticateWithIDAndPassword_quiet _ _ _ _ _ _ h1, hfind,
      hcmp, Exec_quiet _ _ _ _ h2, setUsername_run rows id newUsername hfree]
    rfl
  have hnames := map_setUsername_unique rows id newUsername hv.1 hv.2 (fun _ => hfree)
  have hmem : (⟨r.id, newUsername, r.password, r.data⟩ : Row) ∈
      rows.map (fun x => if x.id = id then { x with username := newUsername } else x) := by
    have := List.mem_map_of_mem
      (fun x : Row => if x.id = id then { x with username := newUsername } else x) hr
    simpa [hid] using this
  have hfind2 := find?_username_of_unique _ hnames _ hmem newUsername rfl
  rw [hup]
  refine ⟨⟨_, rfl⟩, rfl, hmem, ?_, ?_⟩
  · rw [Authenticate_quiet _ _ _ _ _ _ h3, hfind2]
    simp [hcmp, Scan]
  · intro hne
    have hnone : (rows.map
        (fun x => if x.id = id then { x with username := newUsername } else x)).find?
        (fun x => decide (x.username = r.username)) = none := by
      rw [List.find?_eq_none]
      intro x hx
      obtain ⟨y, hy, rfl⟩ := List.mem_map.mp hx
      by_cases hyi : y.id = id
      · simp only [hyi, if_true, decide_eq_true_eq]
        exact fun h => hne h.symm
      · simp only [hyi, if_false, decide_eq_true_eq]
        intro h
        have := List.inj_on_of_nodup_map hv.2 hy hr h
        exact hyi (this ▸ hid)
    rw [Authenticate_quiet _ _ _ _ _ _ h3, hnone]

/-- Witness of C10: alice becomes bob. -/
theorem UpdateUsername_frame_witness :
    ((Store.mk tagHasher).UpdateUsername aliceDB "u1" "bob" "secret").2.rows
      = [⟨"u1", "bob", "h:secret", "[]"⟩] ∧
    ((Store.mk tagHasher).Authenticate
        ((Store.mk tagHasher).UpdateUsername aliceDB "u1" "bob" "secret").2 "bob" "secret").1
      = .ok ⟨"u1", "bob", "h:secret", "[]"⟩ ∧
    ((Store.mk tagHasher).Authenticate
        ((Store.mk tagHasher).UpdateUsername aliceDB "u1" "bob" "secret").2 "alice" "secret").1
      = .error .ErrNotFound :=
  have h := UpdateUsername_frame (Store.mk tagHasher) aliceDB "u1" "bob" "secret"
    ⟨"u1", "alice", "h:secret", "[]"⟩ (by decide) (by decide) rfl (by decide) (by decide)
    (by decide)
  ⟨h.2.1, h.2.2.2.1, h.2.2.2.2 (by decide)⟩

/-! ## The invariant of the table -/

/-- A command that goes through keeps the constraints and the hashed
passwords. -/
theorem run_inv (h : Hasher) (rows rows' : List Row) (c : Command)
    (hid : UniqueIDs rows) (hun : UniqueUsernames rows)
    (hp : ∀ r ∈ rows, ∃ p, h.Hash p = .ok r.password)
    (hc : c.writesHash h) (hrun : c.run rows = .ok rows') :
    UniqueIDs rows' ∧ UniqueUsernames rows' ∧ ∀ r ∈ rows', ∃ p, h.Hash p = .ok r.password := by
  cases c with
  | insertRow id username password data =>
    simp only [Command.run] at hrun
    split at hrun
    · simp at hrun
    · split at hrun
      · simp at hrun
      · rename_i h1 h2
        have hrows : rows' = rows ++ [⟨id, username, password, data⟩] :=
          (Except.ok.inj hrun).symm
        have h1' : ∀ x ∈ rows, x.id ≠ id := by
          simpa [List.any_eq_true] using h1
        have h2' : ∀ x ∈ rows, x.username ≠ username := by
          simpa [List.any_eq_true] using h2
        subst hrows
        refine ⟨?_, ?_, ?_⟩
        · unfold UniqueIDs at hid ⊢
          rw [List.map_append, List.nodup_append]
          refine ⟨hid, by simp, ?_⟩
          intro a ha hb
          obtain ⟨x, hx, rfl⟩ := List.mem_map.mp ha
          simp only [List.map_cons, List.map_nil, List.mem_singleton] at hb
          exact h1' x hx hb
        · unfold UniqueUsernames at hun ⊢
          rw [List.map_append, List.nodup_append]
          refine ⟨hun, by simp, ?_⟩
          intro a ha hb
          obtain ⟨x, hx, rfl⟩ := List.mem_map.mp ha
          simp only [List.map_cons, List.map_nil, List.mem_singleton] at hb
          exact h2' x hx hb
        · intro r hr
          rcases List.mem_append.mp hr with hr | hr
          · exact hp r hr
          · simp only [List.mem_singleton] at hr
            subst hr
            exact hc
  | setPassword id password =>
    simp only [Command.run] at hrun
    have hrows := (Except.ok.inj hrun).symm
    subst hrows
    refine ⟨?_, ?_, ?_⟩
    · unfold UniqueIDs
      rw [map_update_ids rows id (fun x => { x with password := password }) (fun _ => rfl)]
      exact hid
    · unfold UniqueUsernames
      rw [map_update_usernames rows id (fun x => { x with password := password }) (fun _ => rfl)]
      exact hun
    · intro r hr
      obtain ⟨x, hx, rfl⟩ := List.mem_map.mp hr
      by_cases hxi : x.id = id
      · simp only [hxi, if_true]
        exact hc
      · simp only [hxi, if_false]
        exact hp x hx
  | setUsername id username =>
    simp only [Command.run] at hrun
    split at hrun
    · simp at hrun
    · rename_i hcond
      have hrows := (Except.ok.inj hrun).symm
      subst hrows
      have hfree : (∃ x ∈ rows, x.id = id) → ∀ y ∈ rows, y.id ≠ id → y.username ≠ username := by
        rintro ⟨x, hx, hxi⟩ y hy hyi hyu
        apply hcond
        rw [Bool.and_eq_true]
        exact ⟨List.any_eq_true.mpr ⟨x, hx, by simpa using hxi⟩,
          List.any_eq_true.mpr ⟨y, hy, by simpa using ⟨hyi, hyu⟩⟩⟩
      refine ⟨?_, map_setUsername_unique rows id username hid hun hfree, ?_⟩
      · unfold UniqueIDs
        rw [map_update_ids rows id (fun x => { x with username := username }) (fun _ => rfl)]
        exact hid
      · intro r hr
        obtain ⟨x, hx, rfl⟩ := List.mem_map.mp hr
        by_cases hxi : x.id = id
        · simp only [hxi, if_true]
          exact hp x hx
        · simp only [hxi, if_false]
          exact hp x hx
  | setData id data =>
    simp only [Command.run] at hrun
    have hrows := (Except.ok.inj hrun).symm
    subst hrows
    refine ⟨?_, ?_, ?_⟩
    · unfold UniqueIDs
      rw [map_update_ids rows id (fun x => { x with data := data }) (fun _ => rfl)]
      exact hid
    · unfold UniqueUsernames
      rw [map_update_usernames rows id (fun x => { x with data := data }) (fun _ => rfl)]
      exact hun
    · intro r hr
      obtain ⟨x, hx, rfl⟩ := List.mem_map.mp hr
      by_cases hxi : x.id = id
      · simp only [hxi, if_true]
        exact hp x hx
      · simp only [hxi, if_false]
        exact hp x hx
  | deleteRow id =>
    simp only [Command.run] at hrun
    have hrows := (Except.ok.inj hrun).symm
    subst hrows
    refine ⟨?_, ?_, ?_⟩
    · exact List.Nodup.sublist (List.Sublist.map _ (List.filter_sublist _)) hid
    · exact List.Nodup.sublist (List.Sublist.map _ (List.filter_sublist _)) hun
    · intro r hr
      exact hp r (List.mem_of_mem_filter hr)

/-- `Exec` keeps the invariant when the command writes a hash. -/
theorem Exec_inv (h : Hasher) (db : DB) (c : Command) (hi : Inv h db) (hc : c.writesHash h) :
    Inv h (db.Exec c).2 := by
  obtain ⟨hid, hun, hp, hl⟩ := hi
  have hlog : ∀ c', Stmt.exec c' ∈ db.log ++ [Stmt.exec c] → c'.writesHash h := by
    intro c' hc'
    rcases List.mem_append.mp hc' with hm | hm
    · exact hl c' hm
    · simp only [List.mem_singleton, Stmt.exec.injEq] at hm
      exact hm ▸ hc
  unfold DB.Exec
  split
  · exact ⟨hid, hun, hp, hlog⟩
  · split
    · rename_i rows' hrun
      obtain ⟨a, b, c⟩ := run_inv h db.rows rows' c hid hun hp hc hrun
      exact ⟨a, b, c, hlog⟩
    · exact ⟨hid, hun, hp, hlog⟩

/-- `QueryRow` keeps the invariant. -/
theorem QueryRow_inv (h : Hasher) (db : DB) (q : Query) (hi : Inv h db) :
    Inv h (db.QueryRow q).2 := by
  obtain ⟨hid, hun, hp, hl⟩ := hi
  have hlog : ∀ c', Stmt.exec c' ∈ db.log ++ [Stmt.query q] → c'.writesHash h := by
    intro c' hc'
    rcases List.mem_append.mp hc' with hm | hm
    · exact hl c' hm
    · simp at hm
  unfold DB.QueryRow
  split
  · exact ⟨hid, hun, hp, hlog⟩
  · split <;> exact ⟨hid, hun, hp, hlog⟩

theorem Get_inv (s : Store) (db : DB) (id : String) (hi : Inv s.hasher db) :
    Inv s.hasher (s.Get db id).2 := by
  have hq := QueryRow_inv s.hasher db (.byId id) hi
  unfold Store.Get
  split <;> rename_i heq <;> rw [heq] at hq <;> exact hq

theorem Authenticate_inv (s : Store) (db : DB) (username password : String)
    (hi : Inv s.hasher db) : Inv s.hasher (s.Authenticate db username password).2 := by
  have hq := QueryRow_inv s.hasher db (.byUsername username) hi
  unfold Store.Authenticate
  split
  · rename_i heq; rw [heq] at hq; exact hq
  · rename_i heq; rw [heq] at hq; exact hq
  · rename_i heq; rw [heq] at hq
    split <;> exact hq

theorem authenticateWithIDAndPassword_inv (s : Store) (db : DB) (id password : String)
    (hi : Inv s.hasher db) : Inv s.hasher (s.authenticateWithIDAndPassword db id password).2 := by
  have hq := Get_inv s db id hi
  unfold Store.authenticateWithIDAndPassword
  split
  · rename_i heq; rw [heq] at hq; exact hq
  · rename_i heq; rw [heq] at hq
    split <;> exact hq

theorem Create_inv (s : Store) (db : DB) (id username password data : String)
    (hi : Inv s.hasher db) : Inv s.hasher (s.Create db id username password data).2 := by
  unfold Store.Create
  split
  · exact hi
  · rename_i hashed hh
    have he := Exec_inv s.hasher db (.insertRow id username hashed data) hi ⟨password, hh⟩
    split <;> rename_i heq <;> rw [heq] at he <;> exact he

theorem UpdatePassword_inv (s : Store) (db : DB) (id oldPassword newPassword : String)
    (hi : Inv s.hasher db) : Inv s.hasher (s.UpdatePassword db id oldPassword newPassword).2 := by
  have ha := authenticateWithIDAndPassword_inv s db id oldPassword hi
  unfold Store.UpdatePassword
  split
  · rename_i heq; rw [heq] at ha; exact ha
  · rename_i acc db1 heq
    rw [heq] at ha
    split
    · exact ha
    · rename_i hashed hh
      have he := Exec_inv s.hasher db1 (.setPassword id hashed) ha ⟨newPassword, hh⟩
      split <;> rename_i heq2 <;> rw [heq2] at he <;> exact he

theorem UpdateUsername_inv (s : Store) (db : DB) (id username password : String)
    (hi : Inv s.hasher db) : Inv s.hasher (s.UpdateUsername db id username password).2 := by
  have ha := authenticateWithIDAndPassword_inv s db id password hi
  unfold Store.UpdateUsername
  split
  · rename_i heq; rw [heq] at ha; exact ha
  · rename_i acc db1 heq
    rw [heq] at ha
    have he := Exec_inv s.hasher db1 (.setUsername id username) ha trivial
    split <;> rename_i heq2 <;> rw [heq2] at he <;> exact he

theorem Delete_inv (s : Store) (db : DB) (id : String) (hi : Inv s.hasher db) :
    Inv s.hasher (s.Delete db id).2 := by
  have he := Exec_inv s.hasher db (.deleteRow id) hi trivial
  unfold Store.Delete
  split <;> rename_i heq <;> rw [heq] at he <;> exact he

theorem UpdateData_inv (s : Store) (db : DB) (id data : String) (hi : Inv s.hasher db) :
    Inv s.hasher (s.UpdateData db id data).2 := by
  have he := Exec_inv s.hasher db (.setData id data) hi trivial
  unfold Store.UpdateData
  split
  · rename_i heq; rw [heq] at he; exact he
  · rename_i heq; rw [heq] at he
    exact Get_inv s _ id he

/-- Every call keeps the invariant, whether it returns an error or not. -/
theorem call_inv (s : Store) (db : DB) (c : Call) (hi : Inv s.hasher db) :
    Inv s.hasher (s.call db c) := by
  cases c with
  | Create id username password data => exact Create_inv s db id username password data hi
  | Get id => exact Get_inv s db id hi
  | UpdatePassword id o n => exact UpdatePassword_inv s db id o n hi
  | UpdateUsername id u p => exact UpdateUsername_inv s db id u p hi
  | Delete id => exact Delete_inv s db id hi
  | Authenticate u p => exact Authenticate_inv s db u p hi
  | UpdateData id d => exact UpdateData_inv s db id d hi

theorem calls_inv (s : Store) (cs : List Call) (db : DB) (hi : Inv s.hasher db) :
    Inv s.hasher (s.calls db cs) := by
  induction cs generalizing db with
  | nil => exact hi
  | cons c cs ih => exact ih _ (call_inv s db c hi)

/-- C8: in the database reached from the empty table by any sequence of calls
of the store, failing ones and statements that fail included, ids are pairwise
distinct, usernames are pairwise distinct, every stored password is a value
that `Hash` returned for some plaintext, and so is the password parameter of
every `INSERT` and `UPDATE` of the password that was sent. -/
theorem reachable_invariant (s : Store) (faults : List Bool) (cs : List Call) :
    UniqueIDs (s.calls ⟨[], faults, []⟩ cs).rows ∧
    UniqueUsernames (s.calls ⟨[], faults, []⟩ cs).rows ∧
    (∀ r ∈ (s.calls ⟨[], faults, []⟩ cs).rows, ∃ p, s.hasher.Hash p = .ok r.password) ∧
    (∀ c, Stmt.exec c ∈ (s.calls ⟨[], faults, []⟩ cs).log → c.writesHash s.hasher) :=
  calls_inv s cs ⟨[], faults, []⟩
    ⟨List.nodup_nil, List.nodup_nil, fun _ h => absurd h (List.not_mem_nil _),
      fun _ h => absurd h (List.not_mem_nil _)⟩

/-- C8 on a run: alice is created, a second `Create` of her id fails, she
renames herself, changes her password, a second account is created and
deleted. -/
theorem reachable_invariant_witness :
    ((Store.mk tagHasher).calls emptyDB
      [.Create "u1" "alice" "secret" "[]", .Create "u1" "eve" "x" "[]",
       .UpdateUsername "u1" "bob" "secret", .UpdatePassword "u1" "secret" "next",
       .Create "u2" "carol" "pw" "[]", .Delete "u2"]).rows
      = [⟨"u1", "bob", "h:next", "[]"⟩] ∧
    ∀ r ∈ ((Store.mk tagHasher).calls emptyDB
      [.Create "u1" "alice" "secret" "[]", .Create "u1" "eve" "x" "[]",
       .UpdateUsername "u1" "bob" "secret", .UpdatePassword "u1" "secret" "next",
       .Create "u2" "carol" "pw" "[]", .Delete "u2"]).rows,
      ∃ p, tagHasher.Hash p = .ok r.password :=
  ⟨rfl, (reachable_invariant (Store.mk tagHasher) []
      [.Create "u1" "alice" "secret" "[]", .Create "u1" "eve" "x" "[]",
       .UpdateUsername "u1" "bob" "secret", .UpdatePassword "u1" "secret" "next",
       .Create "u2" "carol" "pw" "[]", .Delete "u2"]).2.2.1⟩

end postgres
